import Mathlib

/-!
Shallow embedding of the indicator-profiling logic of the
`datathon-passos-magicos` repository (`scripts/q1_ian_analysis.py`,
`scripts/q2_ida_analysis.py`, `scripts/q3_ieg_analysis.py`).

A cell of a numeric column of the loaded table is an `Option ℚ`: `none`
models a missing value (`NaN` after `pd.to_numeric(..., errors="coerce")`
or an empty cell), `some x` a present numeric value.  Floating-point
numbers are idealised as exact rationals; the correlation coefficients,
whose formula involves a square root, live in `ℝ`, and an `Option` models
a `NaN` result there as well.
-/

namespace Datathon

/-- A cell of a numeric column: `none` is a missing value (`NaN`). -/
abbrev Val := Option ℚ

/-- `series.dropna()`: the present values of a column, in order. -/
def presentVals (col : List Val) : List ℚ := col.filterMap id

/-- `series.notna().sum()`: the number of present values. -/
def presentCount (col : List Val) : ℕ := (presentVals col).length

/-- `series.isna().sum()`: the number of missing values. -/
def missingCount (col : List Val) : ℕ := col.length - presentCount col

/-- Round half to even on rationals: the rounding performed by Python's
`round` and `numpy`/`pandas` `.round`, idealised over exact rationals. -/
def roundHalfEven (q : ℚ) : ℤ :=
  if q - ⌊q⌋ = 1/2 then (if 2 ∣ ⌊q⌋ then ⌊q⌋ else ⌊q⌋ + 1) else round q

/-- `.round(1)`: round to one decimal place. -/
def rnd1 (q : ℚ) : ℚ := (roundHalfEven (q * 10) : ℚ) / 10

/-- Ascending sort of a list of rationals (the order `sort_index()` and a
`groupby` on a numeric key produce). -/
def sortAsc (l : List ℚ) : List ℚ := List.insertionSort (· ≤ ·) l

/-- The distinct values of a list in ascending order: the index of
`value_counts().sort_index()`, and the group keys of a numeric `groupby`. -/
def sortedUnique (l : List ℚ) : List ℚ := (sortAsc l).dedup

/-- Linear interpolation of a sorted list at fractional position `x`:
the value between `s[⌊x⌋]` and `s[⌊x⌋ + 1]` (clamped at the last element
when `⌊x⌋` is the last index, where the fractional part is zero). -/
def interpAt (s : List ℚ) (x : ℚ) : ℚ :=
  s.getD (⌊x⌋).toNat 0 +
    (x - ((⌊x⌋).toNat : ℚ)) *
      (s.getD ((⌊x⌋).toNat + 1) (s.getD (⌊x⌋).toNat 0) - s.getD (⌊x⌋).toNat 0)

/-- Modelled from the spec: percentile computation by linear interpolation
between order statistics — the behaviour of `series.quantile(q)` (pandas'
default `interpolation="linear"`) that q2 lines 114-116 and q3 lines
118-121 invoke on the `.dropna()`-ed indicator.  On the ascending sorted
values of length `n` the percentile sits at fractional position
`q * (n - 1)`. -/
def quantile (xs : List ℚ) (q : ℚ) : ℚ :=
  interpAt (sortAsc xs) (q * (((sortAsc xs).length : ℚ) - 1))

/-- `scripts/q1_ian_analysis.py` lines 96-101: the `freq_ian` table.  One
row per distinct present `IAN` value (ascending), carrying the value, its
count among the present values, and `%_total`: its percentage of the
*total* row count `len(df)`, rounded to one decimal. -/
def freqIan (col : List Val) : List (ℚ × ℕ × ℚ) :=
  (sortedUnique (presentVals col)).map fun v =>
    (v, (presentVals col).count v,
      rnd1 (((presentVals col).count v : ℚ) / (col.length : ℚ) * 100))

/-- `scripts/q1_ian_analysis.py` line 107: the `count` row that
`ian.describe(...)` reports — `ian` is the column after `.dropna()`. -/
def descCount (col : List Val) : ℕ := presentCount col

/-- `scripts/q1_ian_analysis.py` line 108: the `missing` row appended to
the descriptive table, `df["IAN"].isna().sum()`. -/
def descMissing (col : List Val) : ℕ := missingCount col

/-- One cell of `series <= cutoff` in pandas: a missing value (`NaN`)
compares as `False`. -/
def isLow (v : Val) (c : ℚ) : Bool :=
  match v with
  | some x => decide (x ≤ c)
  | none => false

/-- One cell of `series >= cutoff` in pandas: a missing value (`NaN`)
compares as `False`. -/
def isHigh (v : Val) (c : ℚ) : Bool :=
  match v with
  | some x => decide (c ≤ x)
  | none => false

/-- One cell of `(series <= cutoff).astype(int)` (q2 line 190, q3 line 171). -/
def flagLe (v : Val) (c : ℚ) : ℕ := if isLow v c then 1 else 0

/-- One cell of `(series >= cutoff).astype(int)` (q3 line 172). -/
def flagGe (v : Val) (c : ℚ) : ℕ := if isHigh v c then 1 else 0

/-- `int(((col <= c).astype(int)).sum())`: the `qtd` entry of the `<=`-bucket
rows of the rate tables (q2 line 197, q3 line 178). -/
def bucketQtd (col : List Val) (c : ℚ) : ℕ := (col.map (flagLe · c)).sum

/-- `qtd` for a `>=` bucket (q3 line 178, second row). -/
def bucketQtdGe (col : List Val) (c : ℚ) : ℕ := (col.map (flagGe · c)).sum

/-- The `%` entry of a `<=`-bucket rate row:
`(qtd / col.notna().sum() * 100).round(1)` (q2 line 200, q3 lines 181-182). -/
def ratePct (col : List Val) (c : ℚ) : ℚ :=
  rnd1 ((bucketQtd col c : ℚ) / (presentCount col : ℚ) * 100)

/-- The `%` entry of a `>=`-bucket rate row (q3 lines 181-182, second row). -/
def ratePctGe (col : List Val) (c : ℚ) : ℚ :=
  rnd1 ((bucketQtdGe col c : ℚ) / (presentCount col : ℚ) * 100)

/-- Bucket condition `Defas == 0` of the q1 `rates` table (line 171). -/
def defasSem (v : ℚ) : Bool := decide (v = 0)

/-- Bucket condition `Defas == -1` of the q1 `rates` table (line 172). -/
def defasLeve (v : ℚ) : Bool := decide (v = -1)

/-- Bucket condition `Defas <= -2` of the q1 `rates` table (line 173). -/
def defasModerada (v : ℚ) : Bool := decide (v ≤ -2)

/-- Bucket condition `Defas <= -3` of the q1 `rates` table (line 174). -/
def defasSevera (v : ℚ) : Bool := decide (v ≤ -3)

/-- The `qtd` column of the q1 `rates` table (lines 162-177): the four
bucket counts over `defas = df["Defas"].dropna()`. -/
def q1RatesQtd (col : List Val) : List ℕ :=
  [(presentVals col).countP defasSem,
   (presentVals col).countP defasLeve,
   (presentVals col).countP defasModerada,
   (presentVals col).countP defasSevera]

/-- The indicator cells of the rows whose group key equals the present
value `k`: the membership of one `df.groupby(key)` group (pandas drops
rows whose key is missing, so groups exist only for present key values). -/
def groupVals (rows : List (Val × Val)) (k : ℚ) : List Val :=
  (rows.filter (fun r => decide (r.1 = some k))).map Prod.snd

/-- q2 lines 235-242, `rate_low_by_fase` (q3 lines 318-322 analogous):
for each distinct present `Fase` value in ascending order, the `taxa`
column — `tmp.groupby("Fase")[flag].mean()`, the mean of the 0/1
low-bucket flag over *all* rows of the group — and the `%` column
`(taxa * 100).round(1)`. -/
def rateLowByFase (rows : List (Val × Val)) (c : ℚ) : List (ℚ × ℚ × ℚ) :=
  (sortedUnique (presentVals (rows.map Prod.fst))).map fun k =>
    (k,
     (((groupVals rows k).map (flagLe · c)).sum : ℚ) / ((groupVals rows k).length : ℚ),
     rnd1 ((((groupVals rows k).map (flagLe · c)).sum : ℚ) /
       ((groupVals rows k).length : ℚ) * 100))

/-- The per-group rate claim C3 describes, written from the spec's words
for comparison with `rateLowByFase`: bucket count divided by the count of
rows with a *non-missing* indicator value in the group. -/
def specGroupRate (rows : List (Val × Val)) (c : ℚ) (k : ℚ) : ℚ :=
  ((presentVals (groupVals rows k)).countP (fun x => decide (x ≤ c)) : ℚ) /
    (presentCount (groupVals rows k) : ℚ)

/-- `series.mean()` over a group's present values: `NaN` (`none`) when
there are none. -/
def meanOpt (l : List ℚ) : Option ℚ :=
  if l.isEmpty then none else some (l.sum / (l.length : ℚ))

/-- `series.median()`: the 50th percentile of the present values, `NaN`
when there are none. -/
def medianOpt (l : List ℚ) : Option ℚ :=
  if l.isEmpty then none else some (quantile l (1/2))

/-- `df.groupby(key)[ind].agg(["count","mean","median"]).reset_index().sort_values(key)`
for a numeric group key (q1 lines 116-121, 134-139, 209-214; q2 and q3
analogues): one output row per distinct present key value, in ascending
key order; `count` counts the group's present indicator values. -/
def groupAggNum (rows : List (Val × Val)) : List (ℚ × ℕ × Option ℚ × Option ℚ) :=
  (sortedUnique (presentVals (rows.map Prod.fst))).map fun k =>
    (k, presentCount (groupVals rows k),
        meanOpt (presentVals (groupVals rows k)),
        medianOpt (presentVals (groupVals rows k)))

/-- The order `sort_values("mean")` uses on the mean column: ascending,
with `NaN` (`none`) last (pandas' `na_position="last"`). -/
def meanLe (a b : Option ℚ) : Prop :=
  match a, b with
  | _, none => True
  | none, some _ => False
  | some x, some y => x ≤ y

instance : DecidableRel meanLe := fun a b =>
  match a, b with
  | some _, none => .isTrue trivial
  | none, none => .isTrue trivial
  | none, some _ => .isFalse (fun h => h)
  | some x, some y => inferInstanceAs (Decidable (x ≤ y))

instance : IsTotal (Option ℚ) meanLe :=
  ⟨fun a b => by
    cases a <;> cases b <;> simp [meanLe]
    exact le_total _ _⟩

instance : IsTrans (Option ℚ) meanLe :=
  ⟨fun a b c hab hbc => by
    cases a <;> cases b <;> cases c <;> simp_all [meanLe]
    exact le_trans hab hbc⟩

/-- The distinct observed tier labels: the group keys of
`df.groupby("Pedra 22")` (rows with a missing label form no group). -/
def pedraKeys (rows : List (Option String × Val)) : List String :=
  (rows.filterMap Prod.fst).dedup

/-- The indicator cells of the rows carrying tier label `k`. -/
def pedraGroupVals (rows : List (Option String × Val)) (k : String) : List Val :=
  (rows.filter (fun r => decide (r.1 = some k))).map Prod.snd

/-- `df.groupby("Pedra 22")[ind].agg(["count","mean","median"]).reset_index().sort_values("mean")`
(q1 lines 227-232, q3 lines 298-303): one row per observed tier label,
sorted ascending by the group's mean. -/
def groupAggPedra (rows : List (Option String × Val)) :
    List (String × ℕ × Option ℚ × Option ℚ) :=
  List.insertionSort (fun a b => meanLe a.2.2.1 b.2.2.1)
    ((pedraKeys rows).map fun k =>
      (k, presentCount (pedraGroupVals rows k),
          meanOpt (presentVals (pedraGroupVals rows k)),
          medianOpt (presentVals (pedraGroupVals rows k))))

/-- One row of the q3 analysis table: the engagement indicator and the
two compared indicators. -/
structure RowQ3 where
  ieg : Val
  ida : Val
  ipv : Val

/-- `p25 = float(ieg.quantile(0.25))` (q3 line 119), `ieg` being the
`.dropna()`-ed engagement column. -/
def q3P25 (rows : List RowQ3) : ℚ :=
  quantile (presentVals (rows.map RowQ3.ieg)) (25/100)

/-- `p75 = float(ieg.quantile(0.75))` (q3 line 121). -/
def q3P75 (rows : List RowQ3) : ℚ :=
  quantile (presentVals (rows.map RowQ3.ieg)) (75/100)

/-- `low = tmp[tmp["baixo_ieg_p25"] == 1]` (q3 line 234): the rows whose
flag `(IEG <= p25).astype(int)` is 1. -/
def lowGroup (rows : List RowQ3) : List RowQ3 :=
  rows.filter (fun r => isLow r.ieg (q3P25 rows))

/-- `high = tmp[tmp["alto_ieg_p75"] == 1]` (q3 line 235). -/
def highGroup (rows : List RowQ3) : List RowQ3 :=
  rows.filter (fun r => isHigh r.ieg (q3P75 rows))

/-- `float(low["IDA"].mean())` (q3 line 241, first entry). -/
def lowMeanIDA (rows : List RowQ3) : Option ℚ :=
  meanOpt (presentVals ((lowGroup rows).map RowQ3.ida))

/-- `float(high["IDA"].mean())` (q3 line 241, second entry). -/
def highMeanIDA (rows : List RowQ3) : Option ℚ :=
  meanOpt (presentVals ((highGroup rows).map RowQ3.ida))

/-- `float(low["IPV"].mean())` (q3 line 242, first entry). -/
def lowMeanIPV (rows : List RowQ3) : Option ℚ :=
  meanOpt (presentVals ((lowGroup rows).map RowQ3.ipv))

/-- `float(high["IPV"].mean())` (q3 line 242, second entry). -/
def highMeanIPV (rows : List RowQ3) : Option ℚ :=
  meanOpt (presentVals ((highGroup rows).map RowQ3.ipv))

/-- `comp["delta_IDA"] = comp.loc[1,"IDA_medio"] - comp.loc[0,"IDA_medio"]`
(q3 line 245): row 1 is the high-engagement group, row 0 the low one, so
this is the high-group mean minus the low-group mean; `NaN` when either
mean is undefined (float subtraction propagates `NaN`). -/
def deltaIDA (rows : List RowQ3) : Option ℚ :=
  match highMeanIDA rows, lowMeanIDA rows with
  | some hm, some lm => some (hm - lm)
  | _, _ => none

/-- `comp["delta_IPV"]` (q3 line 246), analogously. -/
def deltaIPV (rows : List RowQ3) : Option ℚ :=
  match highMeanIPV rows, lowMeanIPV rows with
  | some hm, some lm => some (hm - lm)
  | _, _ => none

/-- A concrete six-student dataset: engagement `[1,1,1,10,10,10]` puts
three rows in the low group (`<= P25 = 1`) and three in the high group
(`>= P75 = 10`); their compared-indicator means are 5 vs 8 (IDA) and
2 vs 4 (IPV). -/
def exRowsQ3 : List RowQ3 :=
  [⟨some 1, some 4, some 2⟩, ⟨some 1, some 5, some 2⟩, ⟨some 1, some 6, some 2⟩,
   ⟨some 10, some 7, some 4⟩, ⟨some 10, some 8, some 4⟩, ⟨some 10, some 9, some 4⟩]

/-- The two association methods `_corr_safe` is called with
(q3 lines 196-199). -/
inductive Method
  | pearson
  | spearman
  deriving DecidableEq

/-- `pd.concat([a, b], axis=1).dropna()` (q3 line 36): the
pairwise-complete rows of two columns, in order. -/
def paired (a b : List Val) : List (ℚ × ℚ) :=
  (a.zip b).filterMap fun p =>
    match p with
    | (some x, some y) => some (x, y)
    | _ => none

/-- Deviations from the column mean, `x - x.mean()`. -/
def center (l : List ℚ) : List ℚ := l.map (fun x => x - l.sum / (l.length : ℚ))

/-- The sum of pointwise products of the centered columns.  The sample
factor `1/(n-1)` shared by covariance and the two variances cancels in the
correlation ratio, so the coefficient is `covSum / √(varSum · varSum)`. -/
def covSum (xs ys : List ℚ) : ℚ := (List.zipWith (· * ·) (center xs) (center ys)).sum

/-- The sum of squared deviations of one column. -/
def varSum (xs : List ℚ) : ℚ := ((center xs).map (fun x => x ^ 2)).sum

/-- Modelled from the spec: the linear (Pearson-style, covariance-based)
correlation coefficient that `x.corr(method="pearson")` computes — pandas
library code, not part of this repository — `cov / (sd_x · sd_y)`;
`NaN` (`none`) when either column has zero variance on the given rows. -/
noncomputable def pearsonCorr (xs ys : List ℚ) : Option ℝ :=
  if varSum xs = 0 ∨ varSum ys = 0 then none
  else some ((covSum xs ys : ℝ) / (Real.sqrt (varSum xs) * Real.sqrt (varSum ys)))

/-- Modelled from the spec: the average rank of `v` within column `l`
(ties receive the mean of their positions — pandas' default). -/
def rankAvg (l : List ℚ) (v : ℚ) : ℚ :=
  (l.countP (fun x => decide (x < v)) : ℚ) + ((l.count v : ℚ) + 1) / 2

/-- Modelled from the spec: the rank transform of one column. -/
def ranks (l : List ℚ) : List ℚ := l.map (rankAvg l)

/-- Modelled from the spec: the rank-based (Spearman-style) coefficient —
the linear coefficient of the two independently rank-transformed
columns. -/
noncomputable def spearmanCorr (xs ys : List ℚ) : Option ℝ :=
  pearsonCorr (ranks xs) (ranks ys)

/-- `_corr_safe` (q3 lines 35-39): restrict to the pairwise-complete rows;
with fewer than 5 of them return `NaN` for the coefficient — never raise —
otherwise correlate the two restricted columns by the given method. -/
noncomputable def corrSafe (a b : List Val) (m : Method) : Option ℝ :=
  if (paired a b).length < 5 then none
  else
    match m with
    | .pearson => pearsonCorr ((paired a b).map Prod.fst) ((paired a b).map Prod.snd)
    | .spearman => spearmanCorr ((paired a b).map Prod.fst) ((paired a b).map Prod.snd)

/-- The payload of the `ValueError` raised when required columns are
missing (`q1` lines 56-58, `q2` lines 52-54, `q3` lines 59-61): the
message interpolates the list of missing columns and the full list of
available columns. -/
structure MissingColumnError where
  missing : List String
  available : List String
  deriving DecidableEq

/-- `missing = [c for c in required_cols if c not in df.columns]`. -/
def missingCols (required cols : List String) : List String :=
  required.filter (fun c => decide (c ∉ cols))

/-- The required-column check shared by the three scripts: raise a
`ValueError` naming the missing and the available columns iff some
required column is absent after loading; otherwise continue. -/
def checkRequired (required cols : List String) : Except MissingColumnError Unit :=
  if missingCols required cols = [] then .ok ()
  else .error ⟨missingCols required cols, cols⟩

/-- `required_cols` of `scripts/q1_ian_analysis.py` line 55. -/
def requiredQ1 : List String := ["IAN", "Defas", "Ano ingresso", "Idade 22", "Fase", "Pedra 22"]

/-- `required_cols` of `scripts/q2_ida_analysis.py` line 51. -/
def requiredQ2 : List String := ["IDA", "Ano ingresso", "Idade 22", "Fase", "Pedra 22"]

/-- `required` of `scripts/q3_ieg_analysis.py` line 58. -/
def requiredQ3 : List String := ["IEG", "IDA", "IPV", "Ano ingresso", "Idade 22", "Fase", "Pedra 22"]

/-- Rounding an integer to one decimal place returns it unchanged. -/
theorem rnd1_intCast (z : ℤ) : rnd1 (z : ℚ) = z := by
  unfold rnd1 roundHalfEven
  rw [show ((z : ℚ) * 10) = ((z * 10 : ℤ) : ℚ) by push_cast; ring, Int.floor_intCast]
  have hcond : ¬(((z * 10 : ℤ) : ℚ) - ((z * 10 : ℤ) : ℚ) = 1/2) := by norm_num
  rw [if_neg hcond, round_intCast]
  push_cast
  ring

/-- Summing the 0/1 flags of `series <= c` over a whole column counts
exactly the present values that are `<= c`: missing cells contribute 0. -/
theorem sum_flagLe (col : List Val) (c : ℚ) :
    (col.map (flagLe · c)).sum = (presentVals col).countP (fun x => decide (x ≤ c)) := by
  induction col with
  | nil => rfl
  | cons v t ih =>
    cases v with
    | none =>
      have hp : presentVals (none :: t) = presentVals t := by simp [presentVals]
      simp only [List.map_cons, List.sum_cons, hp]
      simpa [flagLe, isLow] using ih
    | some x =>
      have hp : presentVals (some x :: t) = x :: presentVals t := by simp [presentVals]
      simp only [List.map_cons, List.sum_cons, hp, List.countP_cons, ih]
      simp only [flagLe, isLow]
      by_cases hx : x ≤ c
      · simp [hx, Nat.add_comm]
      · simp [hx]

/-- Summing the 0/1 flags of `series >= c` over a whole column counts
exactly the present values that are `>= c`. -/
theorem sum_flagGe (col : List Val) (c : ℚ) :
    (col.map (flagGe · c)).sum = (presentVals col).countP (fun x => decide (c ≤ x)) := by
  induction col with
  | nil => rfl
  | cons v t ih =>
    cases v with
    | none =>
      have hp : presentVals (none :: t) = presentVals t := by simp [presentVals]
      simp only [List.map_cons, List.sum_cons, hp]
      simpa [flagGe, isHigh] using ih
    | some x =>
      have hp : presentVals (some x :: t) = x :: presentVals t := by simp [presentVals]
      simp only [List.map_cons, List.sum_cons, hp, List.countP_cons, ih]
      simp only [flagGe, isHigh]
      by_cases hx : c ≤ x
      · simp [hx, Nat.add_comm]
      · simp [hx]

/-- In a sorted list, values are monotone in the index (via `getD`). -/
theorem getD_mono_of_sorted (s : List ℚ) (hs : s.Sorted (· ≤ ·)) {i j : ℕ}
    (hij : i ≤ j) (hj : j < s.length) : s.getD i 0 ≤ s.getD j 0 := by
  have hi : i < s.length := lt_of_le_of_lt hij hj
  rw [List.getD_eq_getElem s 0 hi, List.getD_eq_getElem s 0 hj]
  exact hs.rel_get_of_le hij

/-- The interpolation slope of a sorted list is nonnegative. -/
theorem interp_slope_nonneg (s : List ℚ) (hs : s.Sorted (· ≤ ·)) (i : ℕ) :
    0 ≤ s.getD (i + 1) (s.getD i 0) - s.getD i 0 := by
  by_cases hlt : i + 1 < s.length
  · have h1 : s.getD (i + 1) (s.getD i 0) = s.getD (i + 1) 0 := by
      rw [List.getD_eq_getElem s _ hlt, List.getD_eq_getElem s 0 hlt]
    rw [h1]
    have := getD_mono_of_sorted s hs (Nat.le_succ i) hlt
    linarith
  · rw [List.getD_eq_default _ _ (by omega)]
    linarith

/-- Fractional-position bounds: `⌊x⌋.toNat ≤ x` for nonnegative `x`. -/
theorem toNat_floor_le {x : ℚ} (hx : 0 ≤ x) : ((⌊x⌋.toNat : ℕ) : ℚ) ≤ x := by
  rw [show (((⌊x⌋.toNat : ℕ)) : ℚ) = ((⌊x⌋.toNat : ℤ) : ℚ) by push_cast; ring,
    Int.toNat_of_nonneg (Int.floor_nonneg.mpr hx)]
  exact Int.floor_le x

/-- Fractional-position bounds: `x < ⌊x⌋.toNat + 1`. -/
theorem lt_toNat_floor_add_one (x : ℚ) : x < ((⌊x⌋.toNat : ℕ) : ℚ) + 1 := by
  rcases le_or_lt 0 x with h0 | h0
  · rw [show (((⌊x⌋.toNat : ℕ)) : ℚ) = ((⌊x⌋.toNat : ℤ) : ℚ) by push_cast; ring,
      Int.toNat_of_nonneg (Int.floor_nonneg.mpr h0)]
    exact Int.lt_floor_add_one x
  · calc x < 0 := h0
      _ < _ := by positivity

/-- The floor index of a position below `s.length - 1` stays below the
last index. -/
theorem toNat_floor_le_last {n : ℕ} (hn : 1 ≤ n) {x : ℚ} (hx : x ≤ (n : ℚ) - 1) :
    ⌊x⌋.toNat ≤ n - 1 := by
  have h1 : ((n : ℚ) - 1) = ((n - 1 : ℕ) : ℚ) := by
    push_cast [hn]
    ring
  have := Int.floor_le_floor (le_trans hx (le_of_eq h1))
  rw [Int.floor_natCast] at this
  omega

/-- The interpolated value is at least the lower order statistic. -/
theorem le_interpAt (s : List ℚ) (hs : s.Sorted (· ≤ ·)) {x : ℚ} (hx : 0 ≤ x) :
    s.getD (⌊x⌋).toNat 0 ≤ interpAt s x := by
  have hfr : 0 ≤ x - ((⌊x⌋.toNat : ℕ) : ℚ) := by
    have := toNat_floor_le hx
    linarith
  have hd := interp_slope_nonneg s hs (⌊x⌋).toNat
  have := mul_nonneg hfr hd
  unfold interpAt
  linarith

/-- The interpolated value is at most the upper order statistic (clamped
to the last index). -/
theorem interpAt_le (s : List ℚ) (hs : s.Sorted (· ≤ ·)) {x : ℚ} (hx : 0 ≤ x)
    (hin : (⌊x⌋).toNat < s.length) :
    interpAt s x ≤ s.getD (min ((⌊x⌋).toNat + 1) (s.length - 1)) 0 := by
  have hfr0 : 0 ≤ x - ((⌊x⌋.toNat : ℕ) : ℚ) := by
    have := toNat_floor_le hx
    linarith
  have hfr1 : x - ((⌊x⌋.toNat : ℕ) : ℚ) ≤ 1 := by
    have := lt_toNat_floor_add_one x
    linarith
  by_cases hlt : (⌊x⌋).toNat + 1 < s.length
  · have hmin : min ((⌊x⌋).toNat + 1) (s.length - 1) = (⌊x⌋).toNat + 1 := by omega
    rw [hmin]
    have h1 : s.getD ((⌊x⌋).toNat + 1) (s.getD (⌊x⌋).toNat 0) =
        s.getD ((⌊x⌋).toNat + 1) 0 := by
      rw [List.getD_eq_getElem s _ hlt, List.getD_eq_getElem s 0 hlt]
    have hd : 0 ≤ s.getD ((⌊x⌋).toNat + 1) 0 - s.getD (⌊x⌋).toNat 0 := by
      have := getD_mono_of_sorted s hs (Nat.le_succ (⌊x⌋).toNat) hlt
      linarith
    have hmul : (x - ((⌊x⌋.toNat : ℕ) : ℚ)) *
        (s.getD ((⌊x⌋).toNat + 1) 0 - s.getD (⌊x⌋).toNat 0) ≤
        1 * (s.getD ((⌊x⌋).toNat + 1) 0 - s.getD (⌊x⌋).toNat 0) :=
      mul_le_mul_of_nonneg_right hfr1 hd
    unfold interpAt
    rw [h1]
    linarith
  · have hmin : min ((⌊x⌋).toNat + 1) (s.length - 1) = (⌊x⌋).toNat := by omega
    rw [hmin]
    have h1 : s.getD ((⌊x⌋).toNat + 1) (s.getD (⌊x⌋).toNat 0) = s.getD (⌊x⌋).toNat 0 :=
      List.getD_eq_default _ _ (by omega)
    unfold interpAt
    rw [h1]
    have heq : s.getD (⌊x⌋).toNat 0 +
        (x - ((⌊x⌋.toNat : ℕ) : ℚ)) * (s.getD (⌊x⌋).toNat 0 - s.getD (⌊x⌋).toNat 0) =
        s.getD (⌊x⌋).toNat 0 := by ring
    rw [heq]

/-- Linear interpolation on a sorted list is monotone in the position. -/
theorem interpAt_mono (s : List ℚ) (hs : s.Sorted (· ≤ ·)) {x y : ℚ}
    (hx0 : 0 ≤ x) (hxy : x ≤ y) (hy1 : y ≤ (s.length : ℚ) - 1) :
    interpAt s x ≤ interpAt s y := by
  have hy0 : 0 ≤ y := le_trans hx0 hxy
  have hlen : 1 ≤ s.length := by
    by_contra hl
    have h0 : s.length = 0 := by omega
    rw [h0] at hy1
    norm_num at hy1
    linarith
  have hiy : (⌊y⌋).toNat ≤ s.length - 1 := toNat_floor_le_last hlen hy1
  have hix : (⌊x⌋).toNat ≤ (⌊y⌋).toNat := Int.toNat_le_toNat (Int.floor_le_floor hxy)
  rcases Nat.eq_or_lt_of_le hix with heq | hlt
  · have hd := interp_slope_nonneg s hs (⌊x⌋).toNat
    have hmul : (x - ((⌊x⌋.toNat : ℕ) : ℚ)) *
        (s.getD ((⌊x⌋).toNat + 1) (s.getD (⌊x⌋).toNat 0) - s.getD (⌊x⌋).toNat 0) ≤
        (y - ((⌊x⌋.toNat : ℕ) : ℚ)) *
        (s.getD ((⌊x⌋).toNat + 1) (s.getD (⌊x⌋).toNat 0) - s.getD (⌊x⌋).toNat 0) :=
      mul_le_mul_of_nonneg_right (by linarith) hd
    unfold interpAt
    rw [← heq]
    linarith
  · calc interpAt s x ≤ s.getD (min ((⌊x⌋).toNat + 1) (s.length - 1)) 0 :=
          interpAt_le s hs hx0 (by omega)
      _ ≤ s.getD (⌊y⌋).toNat 0 := getD_mono_of_sorted s hs (by omega) (by omega)
      _ ≤ interpAt s y := le_interpAt s hs hy0

/-- The percentile function is monotone in the percentile level. -/
theorem quantile_mono (xs : List ℚ) (hne : xs ≠ []) {q q' : ℚ} (hq0 : 0 ≤ q)
    (hqq : q ≤ q') (hq1 : q' ≤ 1) : quantile xs q ≤ quantile xs q' := by
  have hlen : 0 < (sortAsc xs).length := by
    rw [sortAsc, (List.perm_insertionSort _ xs).length_eq]
    exact List.length_pos.mpr hne
  have hn1 : (0 : ℚ) ≤ ((sortAsc xs).length : ℚ) - 1 := by
    have : (1 : ℚ) ≤ ((sortAsc xs).length : ℚ) := by exact_mod_cast hlen
    linarith
  unfold quantile
  apply interpAt_mono _ (List.sorted_insertionSort _ xs)
  · exact mul_nonneg hq0 hn1
  · exact mul_le_mul_of_nonneg_right hqq hn1
  · calc q' * (((sortAsc xs).length : ℚ) - 1) ≤ 1 * (((sortAsc xs).length : ℚ) - 1) :=
        mul_le_mul_of_nonneg_right hq1 hn1
      _ = ((sortAsc xs).length : ℚ) - 1 := one_mul _

set_option maxRecDepth 8000 in
/-- Claim C10: on the dataset whose primary indicator column holds
`[2.5, 5.0, 5.0, 10.0, missing]`, the summary reports 4 present and 1
missing value, and the frequency table is
`{2.5 : 1 (20%), 5.0 : 2 (40%), 10.0 : 1 (20%)}`, the percentages being
taken over the total row count 5. -/
theorem c10_freq_table_scenario :
    descCount [some 2.5, some 5, some 5, some 10, none] = 4 ∧
    descMissing [some 2.5, some 5, some 5, some 10, none] = 1 ∧
    freqIan [some 2.5, some 5, some 5, some 10, none] =
      [(2.5, 1, 20), (5, 2, 40), (10, 1, 20)] := by
  refine ⟨rfl, rfl, ?_⟩
  have h1 : presentVals [some 2.5, some 5, some 5, some 10, none] = [5/2, 5, 5, 10] := by
    simp only [presentVals, List.filterMap_cons, id_eq, List.filterMap_nil]
    norm_num
  have h2 : sortedUnique [5/2, 5, 5, (10:ℚ)] = [5/2, 5, 10] := by
    norm_num [sortedUnique, sortAsc, List.insertionSort, List.orderedInsert,
      List.dedup_cons_of_mem, List.dedup_cons_of_not_mem]
  simp only [freqIan, h1, h2, List.map_cons, List.map_nil]
  norm_num [List.count_cons]
  exact ⟨by simpa using rnd1_intCast 20, by simpa using rnd1_intCast 40,
    by simpa using rnd1_intCast 20⟩

/-- Claim C5: the run fails with the fatal missing-column error exactly
when some required column is absent after loading, and the error carries
both the list of missing column names and the full list of available
columns. -/
theorem c5_missing_column_check (required cols : List String) :
    (checkRequired required cols = .ok () ↔ ∀ c ∈ required, c ∈ cols) ∧
    (∀ e, checkRequired required cols = .error e →
      e.missing = missingCols required cols ∧ e.available = cols ∧
      e.missing ≠ [] ∧ ∀ c ∈ required, c ∉ cols → c ∈ e.missing) := by
  have hmiss : missingCols required cols = [] ↔ ∀ c ∈ required, c ∈ cols := by
    simp [missingCols, List.filter_eq_nil_iff]
  constructor
  · constructor
    · intro h
      by_cases hm : missingCols required cols = []
      · exact hmiss.mp hm
      · simp [checkRequired, hm] at h
    · intro h
      simp [checkRequired, hmiss.mpr h]
  · intro e he
    by_cases hm : missingCols required cols = []
    · simp [checkRequired, hm] at he
    · simp only [checkRequired, if_neg hm] at he
      cases he
      refine ⟨rfl, rfl, hm, ?_⟩
      intro c hc hnc
      simp [missingCols, List.mem_filter, hc, hnc]

/-- Witness for C5: a concrete run with the q1 required list missing two
columns fails with exactly those two columns and the available list in the
error, and a run with all required columns present succeeds. -/
theorem c5_missing_column_check_witness :
    checkRequired requiredQ1 requiredQ1 = .ok () ∧
    ∀ e, checkRequired requiredQ1 ["IAN", "Defas", "Fase", "Pedra 22"] = .error e →
      e.missing = ["Ano ingresso", "Idade 22"] ∧
      e.available = ["IAN", "Defas", "Fase", "Pedra 22"] := by
  constructor
  · exact (c5_missing_column_check requiredQ1 requiredQ1).1.mpr (by decide)
  · intro e he
    have h := (c5_missing_column_check requiredQ1 ["IAN", "Defas", "Fase", "Pedra 22"]).2 e he
    exact ⟨by rw [h.1]; decide, h.2.1⟩

/-- Claim C2: for every indicator column and every bucket classification —
both the `<=`-cutoff buckets (low performance/engagement) and the
`>=`-cutoff bucket (high engagement, `rate_ieg`'s second row) — the
reported bucket count is the number of *present* values in the bucket
(missing cells are never counted), and the reported rate divides that
count by the number of non-missing indicator values — never by the total
row count. -/
theorem c2_rate_denominator (col : List Val) (c : ℚ) (_hpos : 0 < presentCount col) :
    (bucketQtd col c = (presentVals col).countP (fun x => decide (x ≤ c)) ∧
     ratePct col c =
       rnd1 (((presentVals col).countP (fun x => decide (x ≤ c)) : ℚ) /
         (presentCount col : ℚ) * 100)) ∧
    (bucketQtdGe col c = (presentVals col).countP (fun x => decide (c ≤ x)) ∧
     ratePctGe col c =
       rnd1 (((presentVals col).countP (fun x => decide (c ≤ x)) : ℚ) /
         (presentCount col : ℚ) * 100)) := by
  refine ⟨⟨sum_flagLe col c, ?_⟩, sum_flagGe col c, ?_⟩
  · rw [ratePct, bucketQtd, sum_flagLe col c]
  · rw [ratePctGe, bucketQtdGe, sum_flagGe col c]

/-- Witness for C2, on the spec's own example: indicator values
`[1, 2, missing, 3, 4]` with bucket `<= 2` give 2 of 4 non-missing values
in the bucket, a rate of 50% — not the 40% a total-row-count denominator
would give — and the complementary `>= 2` bucket gives 3 of 4, 75%. -/
theorem c2_rate_denominator_witness :
    0 < presentCount [some 1, some 2, none, some 3, some 4] ∧
    bucketQtd [some 1, some 2, none, some 3, some 4] 2 =
      (presentVals [some 1, some 2, none, some 3, some 4]).countP
        (fun x => decide (x ≤ 2)) ∧
    ratePct [some 1, some 2, none, some 3, some 4] 2 = 50 ∧
    bucketQtdGe [some 1, some 2, none, some 3, some 4] 2 =
      (presentVals [some 1, some 2, none, some 3, some 4]).countP
        (fun x => decide (2 ≤ x)) ∧
    ratePctGe [some 1, some 2, none, some 3, some 4] 2 = 75 := by
  have h0 : 0 < presentCount [some 1, some 2, none, some 3, some 4] := by
    simp [presentCount, presentVals, List.filterMap_cons]
  have h := c2_rate_denominator [some 1, some 2, none, some 3, some 4] 2 h0
  have h1 : presentVals [some (1:ℚ), some 2, none, some 3, some 4] = [1, 2, 3, 4] := by
    simp [presentVals, List.filterMap_cons]
  refine ⟨h0, h.1.1, ?_, h.2.1, ?_⟩
  · rw [h.1.2, h1]
    norm_num [List.countP_cons, presentCount, h1]
    simpa using rnd1_intCast 50
  · rw [h.2.2, h1]
    norm_num [List.countP_cons, presentCount, h1]
    simpa using rnd1_intCast 75

/-- Counterexample to claim C4: the q1 `rates` table's buckets are not
mutually exclusive — a row with `Defas = -3` is counted both in the
`Defas <= -2` bucket and in the `Defas <= -3` bucket, so the same row
belongs to two buckets of the same classification. -/
theorem c4_counterexample :
    q1RatesQtd [some (-3)] = [0, 0, 1, 1] ∧
    defasModerada (-3) = true ∧ defasSevera (-3) = true := by
  refine ⟨?_, by norm_num [defasModerada], by norm_num [defasSevera]⟩
  have h1 : presentVals [some (-3 : ℚ)] = [-3] := by simp [presentVals]
  simp only [q1RatesQtd, h1]
  norm_num [List.countP_cons, defasSem, defasLeve, defasModerada, defasSevera]

/-- Claim C6: the computed percentiles are monotone in the percentile
level, `P10 ≤ P25 ≤ P50 ≤ P75 ≤ P90`, for the linearly interpolated
percentile function applied to the present indicator values.  (Proved for
every nonempty distribution, degenerate or not.) -/
theorem c6_percentile_monotone (col : List Val) (h : presentVals col ≠ []) :
    quantile (presentVals col) (10/100) ≤ quantile (presentVals col) (25/100) ∧
    quantile (presentVals col) (25/100) ≤ quantile (presentVals col) (50/100) ∧
    quantile (presentVals col) (50/100) ≤ quantile (presentVals col) (75/100) ∧
    quantile (presentVals col) (75/100) ≤ quantile (presentVals col) (90/100) :=
  ⟨quantile_mono _ h (by norm_num) (by norm_num) (by norm_num),
   quantile_mono _ h (by norm_num) (by norm_num) (by norm_num),
   quantile_mono _ h (by norm_num) (by norm_num) (by norm_num),
   quantile_mono _ h (by norm_num) (by norm_num) (by norm_num)⟩

/-- Witness for C6 at the concrete indicator column `[2, 1, missing, 3]`. -/
theorem c6_percentile_monotone_witness :
    quantile (presentVals [some 2, some 1, none, some 3]) (10/100) ≤
      quantile (presentVals [some 2, some 1, none, some 3]) (25/100) ∧
    quantile (presentVals [some 2, some 1, none, some 3]) (25/100) ≤
      quantile (presentVals [some 2, some 1, none, some 3]) (50/100) ∧
    quantile (presentVals [some 2, some 1, none, some 3]) (50/100) ≤
      quantile (presentVals [some 2, some 1, none, some 3]) (75/100) ∧
    quantile (presentVals [some 2, some 1, none, some 3]) (75/100) ≤
      quantile (presentVals [some 2, some 1, none, some 3]) (90/100) :=
  c6_percentile_monotone [some 2, some 1, none, some 3]
    (by simp [presentVals, List.filterMap_cons])

/-- Claim C4 as amended: the exact-value buckets of the fixed-value policy
(`Defas == 0`, `Defas == -1`) are mutually exclusive, but the cumulative
threshold buckets nest (`Defas <= -3` implies `Defas <= -2`); the
percentile-policy low/high buckets (`<= P25`, `>= P75`) are mutually
exclusive whenever `P25 < P75`, but can overlap on degenerate
distributions where `P25 = P75`. -/
theorem c4_amended :
    (∀ v : ℚ, ¬(defasSem v = true ∧ defasLeve v = true)) ∧
    (∀ v : ℚ, defasSevera v = true → defasModerada v = true) ∧
    (∀ (xs : List ℚ) (v : Val), quantile xs (25/100) < quantile xs (75/100) →
      ¬(isLow v (quantile xs (25/100)) = true ∧
        isHigh v (quantile xs (75/100)) = true)) := by
  refine ⟨?_, ?_, ?_⟩
  · intro v hv
    have h0 : v = 0 := by simpa [defasSem] using hv.1
    have h1 : v = -1 := by simpa [defasLeve] using hv.2
    rw [h0] at h1
    norm_num at h1
  · intro v hv
    have h3 : v ≤ -3 := by simpa [defasSevera] using hv
    simp only [defasModerada, decide_eq_true_eq]
    linarith
  · intro xs v hq hv
    cases v with
    | none => simp [isLow] at hv
    | some x =>
      have hl : x ≤ quantile xs (25/100) := by simpa [isLow] using hv.1
      have hh : quantile xs (75/100) ≤ x := by simpa [isHigh] using hv.2
      linarith

/-- Witness for C4's amended percentile part: on the distribution
`[0, 1, 2, 3]` the cutoffs are `P25 = 0.75 < P75 = 2.25`, and the value
`1` is in neither both buckets — in particular not in both. -/
theorem c4_amended_witness :
    quantile [0, 1, 2, 3] (25/100) < quantile [0, 1, 2, 3] (75/100) ∧
    ¬(isLow (some 1) (quantile [0, 1, 2, 3] (25/100)) = true ∧
      isHigh (some 1) (quantile [0, 1, 2, 3] (75/100)) = true) := by
  have hq : quantile [0, 1, 2, 3] (25/100) < quantile [0, 1, 2, 3] (75/100) := by
    have h25 : quantile [(0:ℚ), 1, 2, 3] (25/100) = 3/4 := by
      unfold quantile interpAt
      norm_num [sortAsc, List.insertionSort, List.orderedInsert, Int.toNat_ofNat,
        List.getD_cons_zero, List.getD_cons_succ]
    have h75 : quantile [(0:ℚ), 1, 2, 3] (75/100) = 9/4 := by
      unfold quantile interpAt
      norm_num [sortAsc, List.insertionSort, List.orderedInsert, Int.toNat_ofNat,
        List.getD_cons_zero, List.getD_cons_succ, show Int.toNat 2 = 2 from rfl]
    rw [h25, h75]
    norm_num
  exact ⟨hq, c4_amended.2.2 [0, 1, 2, 3] (some 1) hq⟩

/-- Summing the 0/1 flags over a list of cells counts the cells whose
present value is in the bucket. -/
theorem sum_flagLe_val (g : List Val) (c : ℚ) :
    (g.map (flagLe · c)).sum = g.countP (fun v => isLow v c) := by
  induction g with
  | nil => rfl
  | cons v t ih =>
    simp only [List.map_cons, List.sum_cons, List.countP_cons, ih]
    by_cases hv : isLow v c <;> simp [flagLe, hv, Nat.add_comm]

/-- Evaluation of `rateLowByFase` on the two-row example dataset
`Fase = [1, 1]`, indicator `= [1, missing]` with cutoff `1`. -/
theorem rateLowByFase_example :
    rateLowByFase [(some 1, some 1), (some 1, none)] 1 = [(1, 1/2, 50)] := by
  have hkeys : sortedUnique (presentVals [some (1:ℚ), some 1]) = [1] := by
    simp [presentVals, sortedUnique, sortAsc, List.insertionSort, List.orderedInsert,
      List.filterMap_cons, List.dedup_cons_of_mem, List.dedup_cons_of_not_mem]
  have hg : groupVals [(some 1, some 1), (some 1, none)] 1 = [some 1, none] := by
    simp [groupVals, List.filter_cons]
  have hflags : ([some (1:ℚ), none].map (flagLe · 1)).sum = 1 := by
    simp [flagLe, isLow]
  have hpct : rnd1 ((50 : ℚ)) = 50 := by simpa using rnd1_intCast 50
  simp only [rateLowByFase, List.map_cons, List.map_nil, hkeys, hg, hflags]
  norm_num [flagLe, isLow, hpct]

/-- Counterexample to claim C3: with group key `Fase = [1, 1]`, indicator
`[1, missing]` and cutoff `1`, the reported per-group rate is `1/2` — the
denominator is the full group row count `2`, counting the row whose
indicator is missing — while the rate computed over the non-missing
indicator rows only, which the claim asserts, is `1`. -/
theorem c3_counterexample :
    rateLowByFase [(some 1, some 1), (some 1, none)] 1 = [(1, 1/2, 50)] ∧
    specGroupRate [(some 1, some 1), (some 1, none)] 1 1 = 1 ∧
    ((1 : ℚ)/2) ≠ 1 := by
  refine ⟨rateLowByFase_example, ?_, by norm_num⟩
  have hg : groupVals [(some 1, some 1), (some 1, none)] 1 = [some 1, none] := by
    simp [groupVals, List.filter_cons]
  simp only [specGroupRate, hg]
  norm_num [presentVals, presentCount, List.filterMap_cons, List.countP_cons]

/-- Claim C3 as amended: a row with a missing indicator value is excluded
from every bucket (its flag is 0, never a default bucket), but the
per-group rate reported by the grouped mean divides the bucket count by
the *full group row count* — including the rows whose indicator is
missing — not by the group's non-missing indicator count. -/
theorem c3_amended (rows : List (Val × Val)) (c : ℚ) (k t p : ℚ)
    (hmem : (k, t, p) ∈ rateLowByFase rows c) :
    t = ((groupVals rows k).countP (fun v => isLow v c) : ℚ) /
        ((groupVals rows k).length : ℚ) ∧
    p = rnd1 (t * 100) ∧
    (∀ v : Val, v = none → isLow v c = false) := by
  rcases List.mem_map.mp hmem with ⟨k', _, heq⟩
  rcases Prod.mk.injEq .. ▸ heq with ⟨hk, hrest⟩
  rcases Prod.mk.injEq .. ▸ hrest with ⟨ht, hp⟩
  subst hk
  refine ⟨?_, ?_, ?_⟩
  · rw [← ht, sum_flagLe_val]
  · rw [← hp, ← ht]
  · intro v hv
    rw [hv]
    rfl

/-- Witness for C3's amended statement at the counterexample dataset:
the reported rate `1/2` is the bucket count over the full group size. -/
theorem c3_amended_witness :
    ((1 : ℚ)/2) = ((groupVals [(some 1, some 1), (some 1, none)] 1).countP
        (fun v => isLow v 1) : ℚ) /
      ((groupVals [(some 1, some 1), (some 1, none)] 1).length : ℚ) ∧
    (50 : ℚ) = rnd1 ((1/2) * 100) ∧
    (∀ v : Val, v = none → isLow v 1 = false) :=
  c3_amended [(some 1, some 1), (some 1, none)] 1 1 (1/2) 50
    (by rw [rateLowByFase_example]; exact List.mem_singleton.mpr rfl)

/-- The distinct ascending values are sorted. -/
theorem sortedUnique_sorted (l : List ℚ) : (sortedUnique l).Sorted (· ≤ ·) :=
  List.Pairwise.sublist (List.dedup_sublist _) (List.sorted_insertionSort _ l)

/-- Sorting by a projected relation and projecting yields a sorted list. -/
theorem sorted_insertionSort_map {α β : Type} (f : α → β) (r : β → β → Prop)
    [DecidableRel r] [IsTotal β r] [IsTrans β r] (l : List α) :
    ((List.insertionSort (fun a b => r (f a) (f b)) l).map f).Sorted r := by
  haveI : IsTotal α (fun a b => r (f a) (f b)) := ⟨fun a b => IsTotal.total (f a) (f b)⟩
  haveI : IsTrans α (fun a b => r (f a) (f b)) :=
    ⟨fun a b c hab hbc => IsTrans.trans (f a) (f b) (f c) hab hbc⟩
  exact List.Pairwise.map f (fun a b h => h)
    (List.sorted_insertionSort (fun a b => r (f a) (f b)) l)

/-- Projecting the first component back out of a keyed table recovers the
key list. -/
theorem map_fst_map_pair {α β : Type} (l : List α) (f : α → β) :
    ((l.map fun k => (k, f k)).map Prod.fst) = l := by
  induction l with
  | nil => rfl
  | cons a t ih => simp [ih]

/-- The key column of a numeric grouped-aggregate table is exactly the
distinct present keys in ascending order. -/
theorem groupAggNum_keys (rows : List (Val × Val)) :
    (groupAggNum rows).map Prod.fst = sortedUnique (presentVals (rows.map Prod.fst)) := by
  unfold groupAggNum
  exact map_fst_map_pair _ fun k =>
    (presentCount (groupVals rows k), meanOpt (presentVals (groupVals rows k)),
      medianOpt (presentVals (groupVals rows k)))

/-- Claim C9: grouped-aggregate tables over a numeric group key come out
sorted ascending in the key, and the tier-label (`Pedra 22`) tables come
out sorted ascending in the group mean (`NaN` means last). -/
theorem c9_group_sort_order (rows : List (Val × Val))
    (rows2 : List (Option String × Val)) :
    ((groupAggNum rows).map Prod.fst).Sorted (· ≤ ·) ∧
    ((groupAggPedra rows2).map
      (fun g : String × ℕ × Option ℚ × Option ℚ => g.2.2.1)).Sorted meanLe := by
  constructor
  · rw [groupAggNum_keys]
    exact sortedUnique_sorted _
  · unfold groupAggPedra
    exact sorted_insertionSort_map
      (fun g : String × ℕ × Option ℚ × Option ℚ => g.2.2.1) meanLe _

/-- Claim C8: the two-group mean-difference comparison reports the signed
difference as high-group mean minus low-group mean whenever both means
are defined — the sign is preserved, never the absolute value. -/
theorem c8_delta_sign (rows : List RowQ3) :
    (∀ lm hm : ℚ, lowMeanIDA rows = some lm → highMeanIDA rows = some hm →
      deltaIDA rows = some (hm - lm)) ∧
    (∀ lm hm : ℚ, lowMeanIPV rows = some lm → highMeanIPV rows = some hm →
      deltaIPV rows = some (hm - lm)) := by
  constructor
  · intro lm hm hl hh
    simp [deltaIDA, hl, hh]
  · intro lm hm hl hh
    simp [deltaIPV, hl, hh]

/-- Witness for C8 on `exRowsQ3`: the low-group IDA mean is 5, the
high-group IDA mean is 8, and the reported delta is `8 - 5 = 3`
(not `-3`); likewise IPV means 2 and 4 give delta 2. -/
theorem c8_delta_sign_witness :
    lowMeanIDA exRowsQ3 = some 5 ∧ highMeanIDA exRowsQ3 = some 8 ∧
    deltaIDA exRowsQ3 = some (8 - 5) ∧
    lowMeanIPV exRowsQ3 = some 2 ∧ highMeanIPV exRowsQ3 = some 4 ∧
    deltaIPV exRowsQ3 = some (4 - 2) := by
  have hp25 : q3P25 exRowsQ3 = 1 := by
    unfold q3P25 quantile interpAt exRowsQ3
    norm_num [presentVals, List.filterMap_cons, sortAsc, List.insertionSort,
      List.orderedInsert, Int.toNat_ofNat, List.getD_cons_zero, List.getD_cons_succ,
      show Int.toNat 1 = 1 from rfl]
  have hp75 : q3P75 exRowsQ3 = 10 := by
    unfold q3P75 quantile interpAt exRowsQ3
    norm_num [presentVals, List.filterMap_cons, sortAsc, List.insertionSort,
      List.orderedInsert, Int.toNat_ofNat, List.getD_cons_zero, List.getD_cons_succ,
      show Int.toNat 3 = 3 from rfl]
  have hlowg : lowGroup exRowsQ3 =
      [⟨some 1, some 4, some 2⟩, ⟨some 1, some 5, some 2⟩, ⟨some 1, some 6, some 2⟩] := by
    unfold lowGroup
    rw [hp25]
    norm_num [exRowsQ3, List.filter_cons, isLow]
  have hhighg : highGroup exRowsQ3 =
      [⟨some 10, some 7, some 4⟩, ⟨some 10, some 8, some 4⟩, ⟨some 10, some 9, some 4⟩] := by
    unfold highGroup
    rw [hp75]
    norm_num [exRowsQ3, List.filter_cons, isHigh]
  have h1 : lowMeanIDA exRowsQ3 = some 5 := by
    unfold lowMeanIDA
    rw [hlowg]
    norm_num [presentVals, List.filterMap_cons, meanOpt]
  have h2 : highMeanIDA exRowsQ3 = some 8 := by
    unfold highMeanIDA
    rw [hhighg]
    norm_num [presentVals, List.filterMap_cons, meanOpt]
  have h3 : lowMeanIPV exRowsQ3 = some 2 := by
    unfold lowMeanIPV
    rw [hlowg]
    norm_num [presentVals, List.filterMap_cons, meanOpt]
  have h4 : highMeanIPV exRowsQ3 = some 4 := by
    unfold highMeanIPV
    rw [hhighg]
    norm_num [presentVals, List.filterMap_cons, meanOpt]
  exact ⟨h1, h2, (c8_delta_sign exRowsQ3).1 5 8 h1 h2, h3, h4,
    (c8_delta_sign exRowsQ3).2 2 4 h3 h4⟩

/-- Claim C1: the association of two indicator columns restricts to the
pairwise-complete rows, and with fewer than 5 of them the coefficient is
`NaN` for either method — and no exception is raised (`corrSafe` is a
total function). -/
theorem c1_insufficient_sample (a b : List Val) (m : Method)
    (h : (paired a b).length < 5) : corrSafe a b m = none := by
  simp [corrSafe, h]

/-- Witness for C1: two 5-row columns with only 4 pairwise-complete rows
give `NaN` for both the linear and the rank-based coefficient. -/
theorem c1_insufficient_sample_witness :
    (paired [some 1, some 2, some 3, some 4, none]
      [some 2, some 4, some 6, some 8, some 9]).length < 5 ∧
    corrSafe [some 1, some 2, some 3, some 4, none]
      [some 2, some 4, some 6, some 8, some 9] .pearson = none ∧
    corrSafe [some 1, some 2, some 3, some 4, none]
      [some 2, some 4, some 6, some 8, some 9] .spearman = none := by
  have h : (paired [some 1, some 2, some 3, some 4, none]
      [some 2, some 4, some 6, some 8, some 9]).length < 5 := by
    norm_num [paired, List.zip_cons_cons, List.filterMap_cons]
  exact ⟨h, c1_insufficient_sample _ _ .pearson h, c1_insufficient_sample _ _ .spearman h⟩

/-- A sum of squares is nonnegative. -/
theorem sum_sq_nonneg (l : List ℚ) : 0 ≤ (l.map (· ^ 2)).sum := by
  apply List.sum_nonneg
  intro z hz
  rcases List.mem_map.mp hz with ⟨w, _, rfl⟩
  positivity

/-- Cauchy–Schwarz for lists: the squared sum of pointwise products is
bounded by the product of the sums of squares. -/
theorem list_inner_sq_le (xs : List ℚ) : ∀ ys : List ℚ,
    ((List.zipWith (· * ·) xs ys).sum) ^ 2 ≤
      ((xs.map (· ^ 2)).sum) * ((ys.map (· ^ 2)).sum) := by
  induction xs with
  | nil =>
    intro ys
    simp
  | cons x xs ih =>
    intro ys
    cases ys with
    | nil => simp
    | cons y ys =>
      have hX : 0 ≤ (xs.map (· ^ 2)).sum := sum_sq_nonneg xs
      have hY : 0 ≤ (ys.map (· ^ 2)).sum := sum_sq_nonneg ys
      have hS := ih ys
      simp only [List.zipWith_cons_cons, List.sum_cons, List.map_cons]
      by_cases hY0 : 0 < (ys.map (· ^ 2)).sum
      · nlinarith [sq_nonneg (x * (ys.map (· ^ 2)).sum -
            y * (List.zipWith (· * ·) xs ys).sum),
          mul_nonneg (add_nonneg (sq_nonneg y) hY)
            (sub_nonneg.mpr hS), hY0, sq_nonneg y, hX]
      · have hYz : (ys.map (· ^ 2)).sum = 0 := le_antisymm (not_lt.mp hY0) hY
        have hSz : (List.zipWith (· * ·) xs ys).sum = 0 := by
          have h2 : ((List.zipWith (· * ·) xs ys).sum) ^ 2 ≤ 0 := by
            rw [hYz] at hS
            simpa using hS
          nlinarith [sq_nonneg ((List.zipWith (· * ·) xs ys).sum)]
        rw [hYz, hSz]
        nlinarith [mul_nonneg hX (sq_nonneg y)]

/-- The covariance sum is symmetric in its two columns. -/
theorem covSum_comm (xs ys : List ℚ) : covSum xs ys = covSum ys xs := by
  unfold covSum
  rw [List.zipWith_comm_of_comm _ mul_comm]

/-- The linear coefficient is symmetric in its two columns. -/
theorem pearsonCorr_comm (xs ys : List ℚ) : pearsonCorr xs ys = pearsonCorr ys xs := by
  unfold pearsonCorr
  by_cases h : varSum xs = 0 ∨ varSum ys = 0
  · rw [if_pos h, if_pos h.symm]
  · rw [if_neg h, if_neg (fun hc => h hc.symm)]
    rw [covSum_comm, mul_comm]

/-- Swapping the two columns swaps each pairwise-complete pair. -/
theorem paired_swap (a : List Val) : ∀ b : List Val,
    paired b a = (paired a b).map Prod.swap := by
  induction a with
  | nil =>
    intro b
    cases b <;> rfl
  | cons x xs ih =>
    intro b
    cases b with
    | nil => rfl
    | cons y ys =>
      cases x <;> cases y <;>
        simp [paired, List.zip_cons_cons, List.filterMap_cons] <;>
        simpa [paired] using ih ys

/-- `_corr_safe` is symmetric in its two columns for either method. -/
theorem corrSafe_comm (a b : List Val) (m : Method) :
    corrSafe a b m = corrSafe b a m := by
  unfold corrSafe
  have hlen : (paired b a).length = (paired a b).length := by
    rw [paired_swap]
    exact List.length_map _ _
  rw [hlen]
  by_cases h5 : (paired a b).length < 5
  · rw [if_pos h5, if_pos h5]
  · rw [if_neg h5, if_neg h5]
    have hfst : (paired b a).map Prod.fst = (paired a b).map Prod.snd := by
      rw [paired_swap, List.map_map]
      simp [Function.comp]
    have hsnd : (paired b a).map Prod.snd = (paired a b).map Prod.fst := by
      rw [paired_swap, List.map_map]
      simp [Function.comp]
    cases m with
    | pearson =>
      rw [hfst, hsnd]
      exact pearsonCorr_comm _ _
    | spearman =>
      unfold spearmanCorr
      rw [hfst, hsnd]
      exact pearsonCorr_comm _ _

/-- A defined linear coefficient lies in `[-1, 1]`. -/
theorem pearsonCorr_bounds (xs ys : List ℚ) (r : ℝ)
    (h : pearsonCorr xs ys = some r) : -1 ≤ r ∧ r ≤ 1 := by
  unfold pearsonCorr at h
  by_cases hv : varSum xs = 0 ∨ varSum ys = 0
  · rw [if_pos hv] at h
    exact absurd h (by simp)
  · rw [if_neg hv] at h
    push_neg at hv
    have hx0 : (0 : ℚ) < varSum xs :=
      lt_of_le_of_ne (sum_sq_nonneg (center xs)) (Ne.symm hv.1)
    have hy0 : (0 : ℚ) < varSum ys :=
      lt_of_le_of_ne (sum_sq_nonneg (center ys)) (Ne.symm hv.2)
    have hcs : (covSum xs ys) ^ 2 ≤ varSum xs * varSum ys :=
      list_inner_sq_le (center xs) (center ys)
    have hr : r = (covSum xs ys : ℝ) /
        (Real.sqrt (varSum xs) * Real.sqrt (varSum ys)) :=
      (Option.some.injEq .. ▸ h).symm
    have hX0 : (0 : ℝ) < (varSum xs : ℚ) := by exact_mod_cast hx0
    have hY0 : (0 : ℝ) < (varSum ys : ℚ) := by exact_mod_cast hy0
    have hcsR : ((covSum xs ys : ℚ) : ℝ) ^ 2 ≤
        ((varSum xs : ℚ) : ℝ) * ((varSum ys : ℚ) : ℝ) := by exact_mod_cast hcs
    have hden : (0 : ℝ) < Real.sqrt (varSum xs) * Real.sqrt (varSum ys) :=
      mul_pos (Real.sqrt_pos.mpr hX0) (Real.sqrt_pos.mpr hY0)
    have habs : |((covSum xs ys : ℚ) : ℝ)| ≤
        Real.sqrt (varSum xs) * Real.sqrt (varSum ys) := by
      calc |((covSum xs ys : ℚ) : ℝ)| = Real.sqrt (((covSum xs ys : ℚ) : ℝ) ^ 2) :=
            (Real.sqrt_sq_eq_abs _).symm
        _ ≤ Real.sqrt (((varSum xs : ℚ) : ℝ) * ((varSum ys : ℚ) : ℝ)) :=
            Real.sqrt_le_sqrt hcsR
        _ = Real.sqrt (varSum xs) * Real.sqrt (varSum ys) :=
            Real.sqrt_mul (le_of_lt hX0) _
    have habs_r : |r| ≤ 1 := by
      rw [hr, abs_div, abs_of_pos hden]
      exact (div_le_one hden).mpr habs
    exact abs_le.mp habs_r

/-- Claim C7 as amended: both association coefficients are symmetric in
their two columns, and every *defined* coefficient (a non-`NaN` result,
which with 5 or more pairwise-complete rows still requires both restricted
columns to have nonzero variance) lies in `[-1, 1]`. -/
theorem c7_amended (a b : List Val) (m : Method) :
    corrSafe a b m = corrSafe b a m ∧
    ∀ r : ℝ, corrSafe a b m = some r → -1 ≤ r ∧ r ≤ 1 := by
  refine ⟨corrSafe_comm a b m, ?_⟩
  intro r hr
  unfold corrSafe at hr
  by_cases h5 : (paired a b).length < 5
  · rw [if_pos h5] at hr
    exact absurd hr (by simp)
  · rw [if_neg h5] at hr
    cases m with
    | pearson => exact pearsonCorr_bounds _ _ r hr
    | spearman =>
      unfold spearmanCorr at hr
      exact pearsonCorr_bounds _ _ r hr

/-- Counterexample to claim C7 as stated: a constant column against a
nondegenerate one has 5 pairwise-complete rows, yet the linear coefficient
is `NaN` (`none`) — not a number lying in `[-1, 1]`. -/
theorem c7_counterexample :
    (paired [some 1, some 1, some 1, some 1, some 1]
      [some 1, some 2, some 3, some 4, some 5]).length = 5 ∧
    corrSafe [some 1, some 1, some 1, some 1, some 1]
      [some 1, some 2, some 3, some 4, some 5] .pearson = none := by
  have hpair : paired [some 1, some 1, some 1, some 1, some 1]
      [some 1, some 2, some 3, some 4, some 5] =
      [(1, 1), (1, 2), (1, 3), (1, 4), (1, 5)] := by
    norm_num [paired, List.zip_cons_cons, List.filterMap_cons]
  have hvar : varSum [(1:ℚ), 1, 1, 1, 1] = 0 := by
    norm_num [varSum, center]
  constructor
  · rw [hpair]
    rfl
  · unfold corrSafe
    rw [hpair]
    norm_num
    unfold pearsonCorr
    rw [hvar]
    simp

/-- Witness for C7's amended statement: the self-association of
`[1, 2, 3, 4, 5]` is the defined coefficient 1, which lies in `[-1, 1]`. -/
theorem c7_amended_witness :
    corrSafe [some 1, some 2, some 3, some 4, some 5]
      [some 1, some 2, some 3, some 4, some 5] .pearson = some (1 : ℝ) ∧
    (-1 ≤ (1 : ℝ) ∧ (1 : ℝ) ≤ 1) := by
  have hpair : paired [some 1, some 2, some 3, some 4, some 5]
      [some 1, some 2, some 3, some 4, some 5] =
      [(1, 1), (2, 2), (3, 3), (4, 4), (5, 5)] := by
    norm_num [paired, List.zip_cons_cons, List.filterMap_cons]
  have hvar : varSum [(1:ℚ), 2, 3, 4, 5] = 10 := by
    norm_num [varSum, center]
  have hcov : covSum [(1:ℚ), 2, 3, 4, 5] [(1:ℚ), 2, 3, 4, 5] = 10 := by
    norm_num [covSum, center]
  have hc : corrSafe [some 1, some 2, some 3, some 4, some 5]
      [some 1, some 2, some 3, some 4, some 5] .pearson = some (1 : ℝ) := by
    unfold corrSafe
    rw [hpair]
    norm_num
    unfold pearsonCorr
    rw [hvar, hcov]
    rw [if_neg (by norm_num)]
    have hs : Real.sqrt ((10 : ℚ) : ℝ) * Real.sqrt ((10 : ℚ) : ℝ) = ((10 : ℚ) : ℝ) := by
      apply Real.mul_self_sqrt
      norm_num
    rw [hs]
    norm_num
  exact ⟨hc, (c7_amended [some 1, some 2, some 3, some 4, some 5]
    [some 1, some 2, some 3, some 4, some 5] .pearson).2 1 hc⟩

end Datathon
